import Mathlib

/-!
Shallow embedding of the wavecast timeline-to-video core
(`src/src-tauri/src/lib.rs`) and proofs about it.

Modelling conventions:
* Rust `f64` / `f32` values are modelled as exact rationals (`ℚ`).  The
  claims under study are about the structure of the emitted filter-graph
  text and about order/clamping facts that are insensitive to binary
  rounding; non-finite floats (`inf`, `NaN`) are outside the model.
* Rust strings are Lean `String`s.  Where the Rust code uses standard
  library string routines (`split`, `replace`, `trim`, `to_lowercase`,
  `ends_with`, `Path::parent`, `Path::join`, `Vec::join`), the embedding
  uses structurally recursive Lean equivalents defined below, so that every
  definition can be evaluated by the kernel.
* The two Tauri commands `convert_timeline_to_video` and `convert_to_video`
  perform external effects (downloading ffmpeg, spawning it, writing and
  deleting files).  They are embedded as pure functions over an explicit
  environment record describing the outcome of each external step, and
  they return the `Result` together with the list of file-system /
  process effects that were performed, in order.
-/

/-- Mirror of Rust `struct TimelineClip` (lib.rs lines 24-31). -/
structure TimelineClip where
  source_file : String
  start_time : ℚ
  duration : ℚ
  trim_start : ℚ
  trim_end : ℚ
  deriving DecidableEq, Repr

/-- Mirror of Rust `struct ClipWithVolume` (lib.rs lines 34-38). -/
structure ClipWithVolume where
  clip : TimelineClip
  track_volume : ℚ
  deriving DecidableEq, Repr

/-- Mirror of Rust `struct TimelineTrack` (lib.rs lines 40-44). -/
structure TimelineTrack where
  clips : List TimelineClip
  volume : ℚ
  deriving DecidableEq, Repr

/-- Mirror of Rust `struct TimelineData` (lib.rs lines 46-49). -/
structure TimelineData where
  tracks : List TimelineTrack
  deriving DecidableEq, Repr

/-- Mirror of Rust `struct ExportProgress` (lib.rs lines 15-21);
`frame: u32` as `Nat`, `fps: f32` and `progress: f64` as `ℚ`. -/
structure ExportProgress where
  frame : Nat
  fps : ℚ
  time : String
  progress : ℚ
  deriving DecidableEq, Repr

/-- Structural model of Rust `str::split(c)` on a character separator:
splits into the (possibly empty) pieces between occurrences of `sep`.
Like Rust, the empty string yields one empty piece. -/
def splitOnChar (sep : Char) : List Char → List (List Char)
  | [] => [[]]
  | c :: cs =>
    let r := splitOnChar sep cs
    if c = sep then [] :: r
    else
      match r with
      | [] => [[c]]
      | h :: t => (c :: h) :: t

/-- Value of a list of decimal digit characters, most significant first. -/
def digitsToNat (ds : List Char) : Nat :=
  ds.foldl (fun a c => a * 10 + (c.toNat - 48)) 0

/-- Parse the optional exponent tail of a float literal (`e`/`E`, optional
sign, at least one digit, nothing after), scaling `mant` accordingly. -/
def parseExpTail (cs : List Char) (mant : ℚ) : Option ℚ :=
  match cs with
  | [] => some mant
  | e :: rest =>
    if e = 'e' ∨ e = 'E' then
      let signAndDigits : Bool × List Char :=
        match rest with
        | '+' :: r => (false, r)
        | '-' :: r => (true, r)
        | r => (false, r)
      let ds := signAndDigits.2.takeWhile Char.isDigit
      let rest2 := signAndDigits.2.dropWhile Char.isDigit
      if ds.isEmpty ∨ ¬ rest2.isEmpty then none
      else if signAndDigits.1 then some (mant / (10 : ℚ) ^ digitsToNat ds)
      else some (mant * (10 : ℚ) ^ digitsToNat ds)
    else none

/-- Parse the unsigned part of a float literal: `Digits [. Digits?] [Exp]`
or `. Digits [Exp]`; at least one digit must be present. -/
def parseF64Core (cs : List Char) : Option ℚ :=
  let intPart := cs.takeWhile Char.isDigit
  let rest1 := cs.dropWhile Char.isDigit
  match rest1 with
  | '.' :: rest2 =>
    let fracPart := rest2.takeWhile Char.isDigit
    let rest3 := rest2.dropWhile Char.isDigit
    if intPart.isEmpty ∧ fracPart.isEmpty then none
    else
      parseExpTail rest3
        ((digitsToNat intPart : ℚ) + (digitsToNat fracPart : ℚ) / (10 : ℚ) ^ fracPart.length)
  | rest2 =>
    if intPart.isEmpty then none
    else parseExpTail rest2 (digitsToNat intPart : ℚ)

/-- Model of Rust `str::parse::<f64>()` returning the exactly-represented
decimal value: optional sign, then a finite decimal with optional exponent.
The non-finite literals (`inf`, `infinity`, `nan`) accepted by Rust have no
rational counterpart and are treated as unparseable; binary rounding of the
decimal value is abstracted away (the parse is exact). -/
def parseF64? (s : String) : Option ℚ :=
  match s.data with
  | [] => none
  | '+' :: rest => parseF64Core rest
  | '-' :: rest => (parseF64Core rest).map Neg.neg
  | cs => parseF64Core cs

/-- Mirror of Rust `parse_time_to_seconds` (lib.rs lines 87-105): split on
`:`; one part parses as bare seconds, three parts as H:M:S, anything else
is `0.0`; each failed sub-parse defaults to `0.0` via `unwrap_or(0.0)`. -/
def parse_time_to_seconds (time_str : String) : ℚ :=
  let parts := splitOnChar ':' time_str.data
  match parts with
  | [_] => (parseF64? time_str).getD 0
  | [h, m, s] =>
    let hours := (parseF64? (String.mk h)).getD 0
    let minutes := (parseF64? (String.mk m)).getD 0
    let seconds := (parseF64? (String.mk s)).getD 0
    hours * 3600 + minutes * 60 + seconds
  | _ => 0

/-- Model of Rust's `as i64` float-to-integer cast for in-range values:
truncation toward zero. -/
def ratTrunc (q : ℚ) : Int :=
  if 0 ≤ q then ⌊q⌋ else -⌊-q⌋

/-- Structural model of Rust `Vec::join(sep)` for strings. -/
def joinSep (sep : String) : List String → String
  | [] => ""
  | [x] => x
  | x :: y :: t => x ++ sep ++ joinSep sep (y :: t)

/-- Structural model of Rust `.iter().enumerate().map(f)`:
map with the index of each element, starting from `i`. -/
def mapWithIndex (f : Nat → α → β) : Nat → List α → List β
  | _, [] => []
  | i, a :: as => f i a :: mapWithIndex f (i + 1) as

/-- The `base_offset` of `generate_filter_complex` (lib.rs line 121): 1 for
the image input at slot 0, plus 1 more when background music sits at slot 1. -/
def clipBaseOffset (has_bg_music : Bool) : Nat :=
  if has_bg_music then 2 else 1

/-- The ffmpeg input index of a clip source (lib.rs line 122): its position
in the unique-source list plus the base offset.  The Rust code `unwrap()`s
the position, which can only succeed when the source occurs in the list;
`List.indexOf` is that position whenever the source is a member. -/
def clipInputIdx (unique_sources : List String) (has_bg_music : Bool) (src : String) : Nat :=
  unique_sources.indexOf src + clipBaseOffset has_bg_music

/-- The per-clip filter subgraph emitted by `generate_filter_complex`
(lib.rs lines 126-134): trim to `[trim_start, trim_start + duration)`
(the code computes the end as `duration + trim_start`), reset timestamps,
apply the track volume, delay both stereo channels by
`start_time * 1000` ms truncated to an integer, and label the result `a{i}`. -/
def clipFilterPart (unique_sources : List String) (has_bg_music : Bool)
    (i : Nat) (cv : ClipWithVolume) : String :=
  let input_idx := clipInputIdx unique_sources has_bg_music cv.clip.source_file
  let trim_end := cv.clip.duration + cv.clip.trim_start
  let delay_ms := ratTrunc (cv.clip.start_time * 1000)
  "[" ++ toString input_idx ++ ":a]atrim=start=" ++ toString cv.clip.trim_start ++
    ":end=" ++ toString trim_end ++ ",asetpts=PTS-STARTPTS,volume=" ++
    toString cv.track_volume ++ ",adelay=" ++ toString delay_ms ++ "|" ++
    toString delay_ms ++ "[a" ++ toString i ++ "]"

/-- The final mixing stage of `generate_filter_complex` (lib.rs lines
137-144): all labels `[a0]..[a{n-1}]`, an n-input `amix` with
`duration=longest`, the master volume, labelled `[aout]`. -/
def mixPart (n : Nat) (main_volume : ℚ) : String :=
  String.join ((List.range n).map (fun i => "[a" ++ toString i ++ "]")) ++
    "amix=inputs=" ++ toString n ++ ":duration=longest,volume=" ++
    toString main_volume ++ "[aout]"

/-- Mirror of Rust `generate_filter_complex` (lib.rs lines 107-147):
empty clip list gives the empty graph, otherwise the per-clip subgraphs
followed by the mixing stage, joined with `;`. -/
def generate_filter_complex (clips : List ClipWithVolume) (unique_sources : List String)
    (main_volume : ℚ) (has_bg_music : Bool) : String :=
  if clips.isEmpty then ""
  else
    joinSep ";"
      (mapWithIndex (fun i cv => clipFilterPart unique_sources has_bg_music i cv) 0 clips ++
        [mixPart clips.length main_volume])

/-- The background-music stage appended by `convert_timeline_to_video`
(lib.rs lines 300-314): loop input 1 forever, apply the background-music
volume as `[bgmusic]`, then mix `[aout]` with `[bgmusic]` with
`duration=first` and `dropout_transition=2`, labelled `[final]`. -/
def appendBgMusic (audio_filter : String) (bg_volume : ℚ) : String :=
  audio_filter ++ ";[1:a]aloop=loop=-1:size=2e+09,volume=" ++ toString bg_volume ++
    "[bgmusic];[aout][bgmusic]amix=inputs=2:duration=first:dropout_transition=2[final]"

/-- The video-filter selection of `convert_timeline_to_video`
(lib.rs lines 258-265). -/
def videoFilterForTimeline (background_style : String) : String :=
  if background_style = "cover" then
    "scale=1280:720:force_original_aspect_ratio=increase,crop=1280:720"
  else if background_style = "contain" then
    "scale=1280:720:force_original_aspect_ratio=decrease,pad=1280:720:(ow-iw)/2:(oh-ih)/2"
  else if background_style = "repeat" then "tile=2x2"
  else if background_style = "center" then
    "scale=1280:720:force_original_aspect_ratio=decrease,pad=1280:720:(ow-iw)/2:(oh-ih)/2"
  else "scale=1280:720:force_original_aspect_ratio=increase,crop=1280:720"

/-- The video-filter selection of the legacy `convert_to_video`
(lib.rs lines 544-551); textually the same match as the timeline path. -/
def videoFilterForLegacy (background_style : String) : String :=
  if background_style = "cover" then
    "scale=1280:720:force_original_aspect_ratio=increase,crop=1280:720"
  else if background_style = "contain" then
    "scale=1280:720:force_original_aspect_ratio=decrease,pad=1280:720:(ow-iw)/2:(oh-ih)/2"
  else if background_style = "repeat" then "tile=2x2"
  else if background_style = "center" then
    "scale=1280:720:force_original_aspect_ratio=decrease,pad=1280:720:(ow-iw)/2:(oh-ih)/2"
  else "scale=1280:720:force_original_aspect_ratio=increase,crop=1280:720"

/-- The background-music mixing filter of the legacy path
(lib.rs lines 565-568). -/
def legacyBgAudioFilter (bg_volume main_volume : ℚ) : String :=
  "[1:a]aloop=loop=-1:size=2e+09[bg];[bg]volume=" ++ toString bg_volume ++
    "[bg_vol];[0:a]volume=" ++ toString main_volume ++
    "[main];[bg_vol][main]amix=inputs=2:duration=first:dropout_transition=2"

/-- The plain volume filter of the legacy path without background music
(lib.rs line 614). -/
def legacyMainAudioFilter (main_volume : ℚ) : String :=
  "volume=" ++ toString main_volume

/-- Structural model of Rust `str::trim`: drop whitespace from both ends. -/
def trimChars (cs : List Char) : List Char :=
  ((cs.dropWhile Char.isWhitespace).reverse.dropWhile Char.isWhitespace).reverse

/-- Structural model of Rust `str::ends_with` on char lists. -/
def listEndsWith (cs tail : List Char) : Bool :=
  decide (cs.reverse.take tail.length = tail.reverse)

/-- The output-filename sanitisation of `convert_timeline_to_video`
(lib.rs lines 240-253): replace filesystem-unsafe characters with `_`,
trim, and append `.mp4` unless the lowercased name already ends in it. -/
def sanitizeOutputName (name : String) : String :=
  let sanitized := String.mk (trimChars (name.data.map (fun c =>
    if c ∈ ['/', '\\', ':', '*', '?', '"', '<', '>', '|'] then '_' else c)))
  if listEndsWith (sanitized.data.map Char.toLower) ".mp4".data then sanitized
  else sanitized ++ ".mp4"

/-- Structural model of Rust `Path::parent` for the paths this code builds:
`none` for the empty or root path, otherwise everything before the final
`/`-separated component (the empty string for a bare file name). -/
def pathParent? (p : String) : Option String :=
  if p = "" ∨ p = "/" then none
  else some (String.mk (joinSep "/" ((splitOnChar '/' p.data).dropLast.map String.mk)).data)

/-- Structural model of Rust `Path::join` for a relative file-name
component: `dir/name`, or just `name` when `dir` is empty. -/
def joinPath (dir name : String) : String :=
  if dir = "" then name else dir ++ "/" ++ name

/-- The clip-flattening loop of `convert_timeline_to_video`
(lib.rs lines 209-218): every clip of every track, in track order,
paired with its track volume. -/
def flattenClips (timeline : TimelineData) : List ClipWithVolume :=
  timeline.tracks.flatMap (fun track =>
    track.clips.map (fun clip => ⟨clip, track.volume⟩))

/-- The unique-source accumulation loop of `convert_timeline_to_video`
(lib.rs lines 284-289): push each clip source not seen before. -/
def computeUniqueSources (clips : List ClipWithVolume) : List String :=
  clips.foldl (fun acc cv =>
    if cv.clip.source_file ∈ acc then acc else acc ++ [cv.clip.source_file]) []

/-- The total-duration fold of `convert_timeline_to_video`
(lib.rs lines 361-363): maximum of `start_time + duration` with base `0.0`. -/
def totalDuration (clips : List ClipWithVolume) : ℚ :=
  (clips.map (fun cv => cv.clip.start_time + cv.clip.duration)).foldl max 0

/-- The progress-percent computation of `convert_timeline_to_video`
(lib.rs lines 380-384): `(elapsed / total * 100).min(100)` when the total
is positive, else `0`. -/
def progressPct (total elapsed : ℚ) : ℚ :=
  if 0 < total then min (elapsed / total * 100) 100 else 0

/-- The fully assembled encoder invocation of the timeline path: ordered
input list, filters, stream mappings and output path (lib.rs lines 270-334). -/
structure EncodePlan where
  inputs : List String
  videoFilter : String
  audioFilter : String
  mapVideo : String
  mapAudio : String
  outputPath : String
  deriving DecidableEq, Repr

/-- The output-name resolution of `convert_timeline_to_video`
(lib.rs lines 240-253): the sanitised caller-supplied name, or
`output.mp4` when none is supplied. -/
def resolveOutputName (output_filename : Option String) : String :=
  match output_filename with
  | some name => sanitizeOutputName name
  | none => "output.mp4"

/-- The pure session-construction prefix of `convert_timeline_to_video`
(lib.rs lines 208-334): flatten the tracks, reject an empty clip list,
resolve the output directory from the first clip and sanitise the output
name, pick the video filter, deduplicate sources, compile the audio filter
(appending the background-music stage when present) and record the stream
mapping.  Everything after this point only spawns and supervises ffmpeg. -/
def buildTimelinePlan (image_path : String) (timeline : TimelineData)
    (background_style : String) (bg_music_path : Option String)
    (bg_music_volume main_audio_volume : Int) (output_filename : Option String) :
    Except String EncodePlan :=
  match flattenClips timeline with
  | [] => .error "No audio clips in timeline"
  | first :: rest =>
    let all_clips := first :: rest
    match pathParent? first.clip.source_file with
    | none => .error "Could not determine audio directory"
    | some audio_dir =>
      let output_name := resolveOutputName output_filename
      let main_volume : ℚ := (main_audio_volume : ℚ) / 100
      let has_bg_music := bg_music_path.isSome
      let unique_sources := computeUniqueSources all_clips
      let base_filter := generate_filter_complex all_clips unique_sources main_volume has_bg_music
      let audio_filter :=
        match bg_music_path with
        | some _ => appendBgMusic base_filter ((bg_music_volume : ℚ) / 100)
        | none => base_filter
      .ok
        { inputs := [image_path] ++ bg_music_path.toList ++ unique_sources
          videoFilter := videoFilterForTimeline background_style
          audioFilter := audio_filter
          mapVideo := "0:v"
          mapAudio := if has_bg_music then "[final]" else "[aout]"
          outputPath := joinPath audio_dir output_name }

/-- One raw ffmpeg progress event as surfaced by the sidecar iterator
(`FfmpegEvent::Progress`, lib.rs line 377). -/
structure FfmpegProgressRaw where
  frame : Nat
  fps : ℚ
  time : String
  deriving DecidableEq, Repr

/-- Outcomes of the external steps taken by `convert_timeline_to_video`:
`none` means the step succeeds, `some e` that it fails with message `e`. -/
structure TimelineEnv where
  downloadErr : Option String
  spawnErr : Option String
  iterErr : Option String
  events : List FfmpegProgressRaw
  waitErr : Option String
  exitSuccess : Bool
  deriving DecidableEq, Repr

/-- An observable external effect of a conversion run. -/
inductive FsEffect where
  | createFile (path : String) (content : String)
  | deleteFile (path : String)
  | spawnEncoder (inputs : List String) (output : String)
  deriving DecidableEq, Repr

/-- Mirror of the Tauri command `convert_timeline_to_video`
(lib.rs lines 180-429) over an explicit environment: returns the Rust
`Result`, the ordered external effects, and the emitted progress events.
The encoder subprocess is spawned only after `buildTimelinePlan`
succeeds; every emitted percentage uses the precomputed total duration. -/
def convert_timeline_to_video_model (env : TimelineEnv) (image_path : String)
    (timeline : TimelineData) (background_style : String) (bg_music_path : Option String)
    (bg_music_volume main_audio_volume : Int) (output_filename : Option String) :
    Except String String × List FsEffect × List ExportProgress :=
  match env.downloadErr with
  | some e => (.error ("Failed to download FFmpeg: " ++ e), [], [])
  | none =>
    match buildTimelinePlan image_path timeline background_style bg_music_path
        bg_music_volume main_audio_volume output_filename with
    | .error e => (.error e, [], [])
    | .ok plan =>
      match env.spawnErr with
      | some e => (.error ("Failed to spawn FFmpeg: " ++ e), [], [])
      | none =>
        let effects := [FsEffect.spawnEncoder plan.inputs plan.outputPath]
        let total := totalDuration (flattenClips timeline)
        match env.iterErr with
        | some e => (.error ("Failed to get FFmpeg iterator: " ++ e), effects, [])
        | none =>
          let progs := env.events.map (fun ev =>
            { frame := ev.frame
              fps := ev.fps
              time := ev.time
              progress := progressPct total (parse_time_to_seconds ev.time) })
          match env.waitErr with
          | some e => (.error ("Failed to execute FFmpeg: " ++ e), effects, progs)
          | none =>
            if env.exitSuccess then (.ok plan.outputPath, effects, progs)
            else (.error "FFmpeg encoding failed", effects, progs)

/-- Outcomes of the external steps taken by the legacy `convert_to_video`. -/
structure LegacyEnv where
  downloadErr : Option String
  writeErr : Option String
  concatSpawnErr : Option String
  concatWaitErr : Option String
  concatSuccess : Bool
  encodeSpawnErr : Option String
  encodeWaitErr : Option String
  encodeSuccess : Bool
  deriving DecidableEq, Repr

/-- The concat list written by the legacy multi-file path (lib.rs lines
484-491): one `file '<path>'` line per input, backslashes normalised. -/
def concatContent (audio_paths : List String) : String :=
  joinSep "\n" (audio_paths.map (fun p =>
    "file \x27" ++ String.mk (p.data.map (fun c => if c = '\\' then '/' else c)) ++ "\x27"))

/-- The encode stage shared by both branches of the legacy path
(lib.rs lines 559-656): spawn ffmpeg over the given inputs, wait, and
classify the exit; `tag` distinguishes the two branch-specific failure
messages. -/
def legacyEncodeStage (env : LegacyEnv) (inputs : List String) (output_path : String)
    (tag : String) (effectsBefore : List FsEffect) :
    Except String Unit × List FsEffect :=
  match env.encodeSpawnErr with
  | some e => (.error ("Failed to spawn FFmpeg: " ++ e), effectsBefore)
  | none =>
    let effects := effectsBefore ++ [FsEffect.spawnEncoder inputs output_path]
    match env.encodeWaitErr with
    | some e => (.error ("Failed to execute FFmpeg: " ++ e), effects)
    | none =>
      if env.encodeSuccess then (.ok (), effects)
      else (.error ("FFmpeg encoding failed (" ++ tag ++ ")"), effects)

/-- Mirror of the legacy Tauri command `convert_to_video`
(lib.rs lines 431-668) over an explicit environment: with more than one
audio file it writes a concat list, runs a stream-copy concatenation into
`temp_combined.mp3`, deletes the concat list only after the concatenation
succeeds, encodes (with or without background music), and deletes the
combined file only on the all-success exit path. -/
def convert_to_video_model (env : LegacyEnv) (image_path : String)
    (audio_paths : List String) (background_style : String)
    (bg_music_path : Option String) (bg_music_volume main_audio_volume : Int) :
    Except String String × List FsEffect :=
  match env.downloadErr with
  | some e => (.error ("Failed to download FFmpeg: " ++ e), [])
  | none =>
    match audio_paths with
    | [] => (.error "No audio files provided", [])
    | first_audio :: _ =>
      match pathParent? first_audio with
      | none => (.error "Could not determine audio directory", [])
      | some audio_dir =>
        let output_path := joinPath audio_dir "output.mp4"
        let concat_list_path := joinPath audio_dir "concat_list.txt"
        let temp_audio := joinPath audio_dir "temp_combined.mp3"
        let concatStage : Except String String × List FsEffect :=
          if audio_paths.length > 1 then
            match env.writeErr with
            | some e => (.error ("Failed to create concat list: " ++ e), [])
            | none =>
              let effects := [FsEffect.createFile concat_list_path (concatContent audio_paths)]
              match env.concatSpawnErr with
              | some e => (.error ("Failed to spawn FFmpeg concat: " ++ e), effects)
              | none =>
                let effects := effects ++ [FsEffect.spawnEncoder [concat_list_path] temp_audio]
                match env.concatWaitErr with
                | some e => (.error ("Failed to concatenate audio: " ++ e), effects)
                | none =>
                  if env.concatSuccess then
                    (.ok temp_audio, effects ++ [FsEffect.deleteFile concat_list_path])
                  else (.error "FFmpeg concatenation failed", effects)
          else (.ok first_audio, [])
        match concatStage with
        | (.error e, effects) => (.error e, effects)
        | (.ok final_audio_path, effects) =>
          let encodeResult :=
            match bg_music_path with
            | some bg_music =>
              legacyEncodeStage env [image_path, bg_music, final_audio_path] output_path
                "with background music" effects
            | none =>
              legacyEncodeStage env [image_path, final_audio_path] output_path
                "without background music" effects
          match encodeResult with
          | (.error e, effects2) => (.error e, effects2)
          | (.ok _, effects2) =>
            if audio_paths.length > 1 then
              (.ok output_path, effects2 ++ [FsEffect.deleteFile temp_audio])
            else (.ok output_path, effects2)

lemma length_mapWithIndex (f : Nat → α → β) (k : Nat) (l : List α) :
    (mapWithIndex f k l).length = l.length := by
  induction l generalizing k with
  | nil => rfl
  | cons a t ih => simp [mapWithIndex, ih]

lemma mapWithIndex_append (f : Nat → α → β) (k : Nat) (l1 l2 : List α) :
    mapWithIndex f k (l1 ++ l2) = mapWithIndex f k l1 ++ mapWithIndex f (k + l1.length) l2 := by
  induction l1 generalizing k with
  | nil => simp [mapWithIndex]
  | cons a t ih =>
    simp only [List.cons_append, mapWithIndex, List.length_cons]
    rw [show k + (t.length + 1) = k + 1 + t.length by omega]
    exact congrArg (f k a :: .) (ih (k + 1))

lemma mapWithIndex_decompose (f : Nat → α → β) (l : List α) (i : Nat) (hi : i < l.length) :
    mapWithIndex f 0 l =
      mapWithIndex f 0 (l.take i) ++ f i l[i] :: mapWithIndex f (i + 1) (l.drop (i + 1)) := by
  conv_lhs => rw [← List.take_append_drop i l]
  rw [mapWithIndex_append, List.length_take, Nat.min_eq_left (Nat.le_of_lt hi),
    List.drop_eq_getElem_cons hi]
  simp [mapWithIndex, Nat.add_comm]

lemma joinSep_ne_nil_cons (sep : String) (x : String) (xs : List String) :
    ∃ t : List Char, (joinSep sep (x :: xs)).data = x.data ++ t := by
  cases xs with
  | nil => exact ⟨[], by simp [joinSep]⟩
  | cons y t => exact ⟨(sep ++ joinSep sep (y :: t)).data, by simp [joinSep]⟩

lemma string_eq_of_data_eq {a b : String} (h : a.data = b.data) : a = b := by
  cases a; cases b; simp only at h; rw [h]

lemma foldl_max_init_le (l : List ℚ) (b : ℚ) : b ≤ l.foldl max b := by
  induction l generalizing b with
  | nil => exact le_refl b
  | cons a t ih => exact le_trans (le_max_left b a) (ih (max b a))

lemma foldl_max_mem_le (l : List ℚ) (b : ℚ) (x : ℚ) (h : x ∈ l) : x ≤ l.foldl max b := by
  induction l generalizing b with
  | nil => cases h
  | cons a t ih =>
    rcases List.mem_cons.1 h with rfl | hx
    · exact le_trans (le_max_right b x) (foldl_max_init_le t (max b x))
    · exact ih (max b a) hx

lemma foldl_max_cases (l : List ℚ) (b : ℚ) : l.foldl max b = b ∨ l.foldl max b ∈ l := by
  induction l generalizing b with
  | nil => exact Or.inl rfl
  | cons a t ih =>
    rcases ih (max b a) with h | h
    · rcases max_cases b a with ⟨he, _⟩ | ⟨he, _⟩
      · exact Or.inl (by rw [List.foldl_cons, h, he])
      · exact Or.inr (by rw [List.foldl_cons, h, he]; exact List.mem_cons_self a t)
    · exact Or.inr (List.mem_cons_of_mem a h)

lemma computeUniqueSources_append (clips : List ClipWithVolume) (cv : ClipWithVolume) :
    computeUniqueSources (clips ++ [cv]) =
      if cv.clip.source_file ∈ computeUniqueSources clips then computeUniqueSources clips
      else computeUniqueSources clips ++ [cv.clip.source_file] := by
  simp [computeUniqueSources, List.foldl_append]

lemma mem_computeUniqueSources (clips : List ClipWithVolume) (s : String) :
    s ∈ computeUniqueSources clips ↔
      s ∈ clips.map (fun cv => cv.clip.source_file) := by
  induction clips using List.reverseRecOn with
  | nil => simp [computeUniqueSources]
  | append_singleton l cv ih =>
    rw [computeUniqueSources_append]
    by_cases hm : cv.clip.source_file ∈ computeUniqueSources l
    · rw [if_pos hm]
      simp only [List.map_append, List.map_cons, List.map_nil, List.mem_append,
        List.mem_singleton]
      constructor
      · exact fun h => Or.inl (ih.1 h)
      · rintro (h | rfl)
        · exact ih.2 h
        · exact hm
    · rw [if_neg hm]
      simp [ih]

lemma nodup_computeUniqueSources (clips : List ClipWithVolume) :
    (computeUniqueSources clips).Nodup := by
  induction clips using List.reverseRecOn with
  | nil => simp [computeUniqueSources]
  | append_singleton l cv ih =>
    rw [computeUniqueSources_append]
    by_cases hm : cv.clip.source_file ∈ computeUniqueSources l
    · rwa [if_pos hm]
    · rw [if_neg hm, List.nodup_append]
      exact ⟨ih, List.nodup_singleton _, fun a ha hb => hm (by rwa [List.mem_singleton.1 hb] at ha)⟩

lemma pairwise_firstSeen_computeUniqueSources (clips : List ClipWithVolume) :
    (computeUniqueSources clips).Pairwise (fun a b =>
      (clips.map (fun cv => cv.clip.source_file)).indexOf a <
        (clips.map (fun cv => cv.clip.source_file)).indexOf b) := by
  induction clips using List.reverseRecOn with
  | nil => simp [computeUniqueSources]
  | append_singleton l cv ih =>
    rw [computeUniqueSources_append]
    have hidx : ∀ a ∈ computeUniqueSources l,
        ((l ++ [cv]).map (fun cv => cv.clip.source_file)).indexOf a =
          (l.map (fun cv => cv.clip.source_file)).indexOf a := by
      intro a ha
      rw [List.map_append]
      exact List.indexOf_append_of_mem ((mem_computeUniqueSources l a).1 ha)
    by_cases hm : cv.clip.source_file ∈ computeUniqueSources l
    · rw [if_pos hm]
      refine List.Pairwise.imp_of_mem ?_ ih
      intro a b ha hb hab
      rw [hidx a ha, hidx b hb]
      exact hab
    · rw [if_neg hm, List.pairwise_append]
      refine ⟨List.Pairwise.imp_of_mem (fun {a b} ha hb hab => ?_) ih,
        List.pairwise_singleton _ _, ?_⟩
      · rw [hidx a ha, hidx b hb]; exact hab
      · intro a ha b hb
        rw [List.mem_singleton.1 hb, hidx a ha, List.map_append]
        have hnm : cv.clip.source_file ∉ l.map (fun cv => cv.clip.source_file) :=
          fun hc => hm ((mem_computeUniqueSources l _).2 hc)
        rw [List.indexOf_append_of_not_mem hnm]
        have hlt : (l.map (fun cv => cv.clip.source_file)).indexOf a <
            (l.map (fun cv => cv.clip.source_file)).length :=
          List.indexOf_lt_length.2 ((mem_computeUniqueSources l a).1 ha)
        exact lt_of_lt_of_le hlt (Nat.le_add_right _ _)

/-- Claim C4: for every input string, the time parser returns
`H*3600 + M*60 + S` for a three-part `H:M:S[.fraction]` string (each
non-numeric sub-part individually contributing `0.0`), the parsed decimal
value for a bare one-part string (`0.0` if it is non-numeric), and `0.0`
for any other shape. -/
theorem parse_time_shape (s : String) :
    (∀ a, splitOnChar ':' s.data = [a] →
      parse_time_to_seconds s = (parseF64? s).getD 0) ∧
    (∀ hp mp sp, splitOnChar ':' s.data = [hp, mp, sp] →
      parse_time_to_seconds s =
        (parseF64? (String.mk hp)).getD 0 * 3600 + (parseF64? (String.mk mp)).getD 0 * 60 +
          (parseF64? (String.mk sp)).getD 0) ∧
    ((splitOnChar ':' s.data).length ≠ 1 → (splitOnChar ':' s.data).length ≠ 3 →
      parse_time_to_seconds s = 0) := by
  refine ⟨fun a ha => ?_, fun hp mp sp hparts => ?_, fun h1 h3 => ?_⟩
  · rw [parse_time_to_seconds, ha]
  · rw [parse_time_to_seconds, hparts]
  · rw [parse_time_to_seconds]
    rcases hparts : splitOnChar ':' s.data with _ | ⟨a, _ | ⟨b, _ | ⟨c, _ | ⟨d, t⟩⟩⟩⟩ <;>
      rw [hparts] at h1 h3 <;> simp_all

/-- Witness for C4 at concrete inputs: a well-formed `H:M:S.fraction`
string, a bare decimal, a two-part string, and a three-part string with a
non-numeric hour part. -/
theorem parse_time_shape_witness :
    parse_time_to_seconds "01:02:03.5" = 3723.5 ∧
    parse_time_to_seconds "12.5" = 12.5 ∧
    parse_time_to_seconds "1:2" = 0 ∧
    parse_time_to_seconds "xx:02:10" = 130 := by
  refine ⟨?_, ?_, ?_, ?_⟩
  · rw [(parse_time_shape "01:02:03.5").2.1 "01".data "02".data "03.5".data (by decide)]
    simp +decide [parseF64?, parseF64Core, parseExpTail, digitsToNat]
    norm_num
  · rw [(parse_time_shape "12.5").1 "12.5".data (by decide)]
    simp +decide [parseF64?, parseF64Core, parseExpTail, digitsToNat]
    norm_num
  · exact (parse_time_shape "1:2").2.2 (by decide) (by decide)
  · rw [(parse_time_shape "xx:02:10").2.1 "xx".data "02".data "10".data (by decide)]
    simp +decide [parseF64?, parseF64Core, parseExpTail, digitsToNat]
    norm_num

/-- Claim C10: the fit modes `center` and `contain` select exactly the same
video filter chain in both the timeline path and the legacy path, the two
paths agree on every fit mode, and only three distinct chains exist among
the four documented modes. -/
theorem fit_mode_collapse :
    videoFilterForTimeline "center" = videoFilterForTimeline "contain" ∧
    videoFilterForLegacy "center" = videoFilterForLegacy "contain" ∧
    (∀ s, videoFilterForTimeline s = videoFilterForLegacy s) ∧
    videoFilterForTimeline "cover" ≠ videoFilterForTimeline "contain" ∧
    videoFilterForTimeline "cover" ≠ videoFilterForTimeline "repeat" ∧
    videoFilterForTimeline "contain" ≠ videoFilterForTimeline "repeat" :=
  ⟨by decide, by decide, fun s => rfl, by decide, by decide, by decide⟩

lemma ratTrunc_eq_floor {q : ℚ} (h : 0 ≤ q) : ratTrunc q = ⌊q⌋ := if_pos h

/-- Claim C1: the compiled graph contains, at position `i` of its
`;`-separated parts, a per-clip subgraph that trims the clip's input
stream to `[trim_start, trim_start + duration)`, resets timestamps to a
zero origin, applies the owning track's volume, delays both stereo legs
by `⌊start_time * 1000⌋` milliseconds, and is labelled `a{i}`. -/
theorem clip_subgraph_emitted (clips : List ClipWithVolume) (us : List String) (mv : ℚ)
    (bg : Bool) (i : Nat) (hi : i < clips.length)
    (hpos : 0 ≤ clips[i].clip.start_time) :
    ∃ pre post : List String, pre.length = i ∧
      generate_filter_complex clips us mv bg =
        joinSep ";" (pre ++
          ["[" ++ toString (us.indexOf clips[i].clip.source_file + (if bg then 2 else 1)) ++
            ":a]atrim=start=" ++ toString clips[i].clip.trim_start ++ ":end=" ++
            toString (clips[i].clip.trim_start + clips[i].clip.duration) ++
            ",asetpts=PTS-STARTPTS,volume=" ++ toString clips[i].track_volume ++
            ",adelay=" ++ toString ⌊clips[i].clip.start_time * 1000⌋ ++ "|" ++
            toString ⌊clips[i].clip.start_time * 1000⌋ ++ "[a" ++ toString i ++ "]"] ++ post) := by
  have hne : clips.isEmpty = false := by
    cases clips with
    | nil => simp at hi
    | cons a t => rfl
  refine ⟨mapWithIndex (fun j cv => clipFilterPart us bg j cv) 0 (clips.take i),
    mapWithIndex (fun j cv => clipFilterPart us bg j cv) (i + 1) (clips.drop (i + 1)) ++
      [mixPart clips.length mv], ?_, ?_⟩
  · rw [length_mapWithIndex, List.length_take]
    omega
  · rw [generate_filter_complex, hne]
    simp only [Bool.false_eq_true, if_false]
    rw [mapWithIndex_decompose (fun j cv => clipFilterPart us bg j cv) clips i hi]
    have hpart : clipFilterPart us bg i clips[i] =
        "[" ++ toString (us.indexOf clips[i].clip.source_file + (if bg then 2 else 1)) ++
          ":a]atrim=start=" ++ toString clips[i].clip.trim_start ++ ":end=" ++
          toString (clips[i].clip.trim_start + clips[i].clip.duration) ++
          ",asetpts=PTS-STARTPTS,volume=" ++ toString clips[i].track_volume ++
          ",adelay=" ++ toString ⌊clips[i].clip.start_time * 1000⌋ ++ "|" ++
          toString ⌊clips[i].clip.start_time * 1000⌋ ++ "[a" ++ toString i ++ "]" := by
      have htr : ratTrunc (clips[i].clip.start_time * 1000) =
          ⌊clips[i].clip.start_time * 1000⌋ :=
        ratTrunc_eq_floor (mul_nonneg hpos (by norm_num))
      simp only [clipFilterPart, clipInputIdx, clipBaseOffset, htr]
      rw [add_comm clips[i].clip.duration clips[i].clip.trim_start]
    rw [hpart]
    simp [List.append_assoc]

/-- Witness for C1: a single clip with `start_time = 0`, `duration = 5`,
`trim_start = 2` (and an irrelevant `trim_end = 9`) is trimmed to `[2,7)`
and delayed by `0` ms, with output label `a0`. -/
theorem clip_subgraph_emitted_witness :
    ∃ pre post : List String, pre.length = 0 ∧
      generate_filter_complex [⟨⟨"a.mp3", 0, 5, 2, 9⟩, 1⟩] ["a.mp3"] 1 false =
        joinSep ";" (pre ++
          ["[1:a]atrim=start=2:end=7,asetpts=PTS-STARTPTS,volume=1,adelay=0|0[a0]"] ++ post) := by
  obtain ⟨pre, post, hlen, hgraph⟩ :=
    clip_subgraph_emitted [⟨⟨"a.mp3", 0, 5, 2, 9⟩, 1⟩] ["a.mp3"] 1 false 0 (by decide)
      (by norm_num)
  refine ⟨pre, post, hlen, ?_⟩
  rw [hgraph]
  apply congrArg (joinSep ";")
  have h1 : ∀ x y : String, x = y → pre ++ [x] ++ post = pre ++ [y] ++ post := by
    intro x y hxy
    rw [hxy]
  apply h1
  norm_num
  decide

/-- Two clips that agree on every field except possibly `trim_end`,
including the owning track's volume. -/
def sameExceptTrimEnd (a b : ClipWithVolume) : Prop :=
  a.clip.source_file = b.clip.source_file ∧ a.clip.start_time = b.clip.start_time ∧
    a.clip.duration = b.clip.duration ∧ a.clip.trim_start = b.clip.trim_start ∧
    a.track_volume = b.track_volume

lemma clipFilterPart_congr (us : List String) (bg : Bool) (i : Nat)
    {a b : ClipWithVolume} (h : sameExceptTrimEnd a b) :
    clipFilterPart us bg i a = clipFilterPart us bg i b := by
  obtain ⟨h1, h2, h3, h4, h5⟩ := h
  simp only [clipFilterPart, clipInputIdx, h1, h2, h3, h4, h5]

lemma mapWithIndex_clipFilterPart_congr (us : List String) (bg : Bool)
    {l1 l2 : List ClipWithVolume} (h : List.Forall₂ sameExceptTrimEnd l1 l2) (k : Nat) :
    mapWithIndex (fun j cv => clipFilterPart us bg j cv) k l1 =
      mapWithIndex (fun j cv => clipFilterPart us bg j cv) k l2 := by
  induction h generalizing k with
  | nil => rfl
  | cons hab htl ih =>
    simp only [mapWithIndex]
    rw [clipFilterPart_congr us bg k hab, ih (k + 1)]

/-- Claim C7: the `trim_end` field has no influence on graph compilation:
two clip lists that agree except possibly on `trim_end` fields compile to
byte-identical filter-graph text (the trim end is re-derived as
`trim_start + duration`). -/
theorem trim_end_ignored {clips1 clips2 : List ClipWithVolume}
    (h : List.Forall₂ sameExceptTrimEnd clips1 clips2) (us : List String) (mv : ℚ)
    (bg : Bool) :
    generate_filter_complex clips1 us mv bg = generate_filter_complex clips2 us mv bg := by
  have hlen : clips1.length = clips2.length := List.Forall₂.length_eq h
  have hemp : clips1.isEmpty = clips2.isEmpty := by
    cases clips1 <;> cases clips2 <;> simp_all
  rw [generate_filter_complex, generate_filter_complex, hemp, hlen,
    mapWithIndex_clipFilterPart_congr us bg h 0]

/-- Witness for C7: a pair of singleton clip lists differing only in
`trim_end` (`9` versus `999`) compile to the same graph text. -/
theorem trim_end_ignored_witness :
    generate_filter_complex [⟨⟨"a.mp3", 0, 5, 2, 9⟩, 1⟩] ["a.mp3"] 1 false =
      generate_filter_complex [⟨⟨"a.mp3", 0, 5, 2, 999⟩, 1⟩] ["a.mp3"] 1 false :=
  trim_end_ignored
    (List.Forall₂.cons ⟨rfl, rfl, rfl, rfl, rfl⟩ List.Forall₂.nil) ["a.mp3"] 1 false

lemma buildTimelinePlan_inv {image_path : String} {tl : TimelineData} {style : String}
    {bgp : Option String} {bgv mv : Int} {outName : Option String} {plan : EncodePlan}
    (hplan : buildTimelinePlan image_path tl style bgp bgv mv outName = .ok plan) :
    ∃ first rest audio_dir,
      flattenClips tl = first :: rest ∧
      pathParent? first.clip.source_file = some audio_dir ∧
      plan =
        { inputs := [image_path] ++ bgp.toList ++ computeUniqueSources (first :: rest)
          videoFilter := videoFilterForTimeline style
          audioFilter :=
            if bgp.isSome then
              appendBgMusic
                (generate_filter_complex (first :: rest) (computeUniqueSources (first :: rest))
                  ((mv : ℚ) / 100) true) ((bgv : ℚ) / 100)
            else
              generate_filter_complex (first :: rest) (computeUniqueSources (first :: rest))
                ((mv : ℚ) / 100) false
          mapVideo := "0:v"
          mapAudio := if bgp.isSome then "[final]" else "[aout]"
          outputPath := joinPath audio_dir (resolveOutputName outName) } := by
  rcases hF : flattenClips tl with _ | ⟨first, rest⟩
  · simp only [buildTimelinePlan, hF] at hplan
    exact absurd hplan (by simp)
  · rcases hP : pathParent? first.clip.source_file with _ | audio_dir
    · simp only [buildTimelinePlan, hF, hP] at hplan
      exact absurd hplan (by simp)
    · simp only [buildTimelinePlan, hF, hP, Except.ok.injEq] at hplan
      refine ⟨first, rest, audio_dir, by simp [hF], by simp [hP], ?_⟩
      cases bgp with
      | none => simp [← hplan]
      | some m => simp [← hplan]

/-- Claim C2: for a non-empty clip list the compiled audio filter ends its
main stage with an N-input mix of labels `a0..a{N-1}` using
`duration=longest` followed by the master volume, labelled `aout`; when
background music is present a further stage loops input 1 indefinitely,
applies the background-music gain as `bgmusic`, and mixes `aout` with
`bgmusic` two-way with `duration=first` and a dropout-transition window,
labelled `final`; the label mapped to the output is `final` exactly when
background music is present and `aout` otherwise. -/
theorem mix_and_bg_stage {image_path : String} {tl : TimelineData} {style : String}
    {bgp : Option String} {bgv mv : Int} {outName : Option String} {plan : EncodePlan}
    (hplan : buildTimelinePlan image_path tl style bgp bgv mv outName = .ok plan) :
    ∃ parts : List String,
      parts.length = (flattenClips tl).length ∧ 0 < parts.length ∧
      plan.audioFilter =
        joinSep ";" (parts ++
            [String.join ((List.range (flattenClips tl).length).map
                (fun j => "[a" ++ toString j ++ "]")) ++
              "amix=inputs=" ++ toString (flattenClips tl).length ++
              ":duration=longest,volume=" ++ toString ((mv : ℚ) / 100) ++ "[aout]"]) ++
          (if bgp.isSome then
            ";[1:a]aloop=loop=-1:size=2e+09,volume=" ++ toString ((bgv : ℚ) / 100) ++
              "[bgmusic];[aout][bgmusic]amix=inputs=2:duration=first:dropout_transition=2[final]"
          else "") ∧
      plan.mapAudio = (if bgp.isSome then "[final]" else "[aout]") := by
  obtain ⟨first, rest, audio_dir, hF, hP, hplanEq⟩ := buildTimelinePlan_inv hplan
  subst hplanEq
  refine ⟨mapWithIndex
      (fun j cv => clipFilterPart (computeUniqueSources (first :: rest)) bgp.isSome j cv) 0
      (first :: rest), ?_, ?_, ?_, rfl⟩
  · rw [length_mapWithIndex, hF]
  · rw [length_mapWithIndex]
    simp
  · have hgen : ∀ b : Bool,
        generate_filter_complex (first :: rest) (computeUniqueSources (first :: rest))
            ((mv : ℚ) / 100) b =
          joinSep ";" (mapWithIndex
              (fun j cv => clipFilterPart (computeUniqueSources (first :: rest)) b j cv) 0
              (first :: rest) ++
            [mixPart (first :: rest).length ((mv : ℚ) / 100)]) := by
      intro b
      rw [generate_filter_complex]
      rfl
    cases bgp with
    | none =>
      simp only [Option.isSome_none, Bool.false_eq_true, if_false]
      rw [hgen false, hF]
      rw [mixPart]
      simp [String.append_empty]
    | some m =>
      simp only [Option.isSome_some, if_true]
      rw [appendBgMusic, hgen true, hF]
      rw [mixPart]
      simp [String.append_assoc]

/-- Concrete one-clip timeline used by witnesses: a single track holding
one clip of `d/a.mp3` at `start_time 0`, `duration 5`. -/
def tlW : TimelineData := ⟨[⟨[⟨"d/a.mp3", 0, 5, 0, 5⟩], 1⟩]⟩

/-- The plan compiled for `tlW` with background music `m.mp3` (both gains
100 percent), as a fully evaluated literal. -/
def planW : EncodePlan :=
  { inputs := ["img.png", "m.mp3", "d/a.mp3"]
    videoFilter := "scale=1280:720:force_original_aspect_ratio=increase,crop=1280:720"
    audioFilter := "[2:a]atrim=start=0:end=5,asetpts=PTS-STARTPTS,volume=1,adelay=0|0[a0];[a0]amix=inputs=1:duration=longest,volume=1[aout];[1:a]aloop=loop=-1:size=2e+09,volume=1[bgmusic];[aout][bgmusic]amix=inputs=2:duration=first:dropout_transition=2[final]"
    mapVideo := "0:v"
    mapAudio := "[final]"
    outputPath := "d/output.mp4" }

set_option maxRecDepth 4000 in
lemma buildTimelinePlan_tlW :
    buildTimelinePlan "img.png" tlW "cover" (some "m.mp3") 100 100 none = .ok planW := by
  simp +decide [buildTimelinePlan, flattenClips, pathParent?, resolveOutputName,
    sanitizeOutputName, computeUniqueSources, generate_filter_complex, appendBgMusic, mixPart,
    clipFilterPart, clipInputIdx, clipBaseOffset, ratTrunc, joinSep, joinPath, mapWithIndex,
    splitOnChar, videoFilterForTimeline, tlW, planW]

/-- Witness for C2: the one-clip timeline with background music compiles to
an audio filter whose final stages are the `aout` mix and the `bgmusic`
loop-and-mix stage, with the output mapped from `final`. -/
theorem mix_and_bg_stage_witness :
    ∃ parts : List String,
      parts.length = (flattenClips tlW).length ∧ 0 < parts.length ∧
      planW.audioFilter =
        joinSep ";" (parts ++
            [String.join ((List.range (flattenClips tlW).length).map
                (fun j => "[a" ++ toString j ++ "]")) ++
              "amix=inputs=" ++ toString (flattenClips tlW).length ++
              ":duration=longest,volume=" ++ toString ((100 : ℚ) / 100) ++ "[aout]"]) ++
          (if (some "m.mp3").isSome then
            ";[1:a]aloop=loop=-1:size=2e+09,volume=" ++ toString ((100 : ℚ) / 100) ++
              "[bgmusic];[aout][bgmusic]amix=inputs=2:duration=first:dropout_transition=2[final]"
          else "") ∧
      planW.mapAudio = (if (some "m.mp3").isSome then "[final]" else "[aout]") := by
  have h := mix_and_bg_stage buildTimelinePlan_tlW
  norm_num at h ⊢
  exact h

/-- Claim C3: the unique-source list holds each distinct clip source
exactly once, ordered by first occurrence in flattening order; every
clip's compiled input index is its source's position in that list plus a
base offset of 2 with background music and 1 without, so same-source clips
share an index, the index points back at the source within the assembled
input list, and M distinct sources add exactly M inputs after the leading
image (slot 0) and optional background music (slot 1). -/
theorem input_resolver (clips : List ClipWithVolume) (bg : Bool)
    (us srcs : List String) (hus : us = computeUniqueSources clips)
    (hsrcs : srcs = clips.map (fun cv => cv.clip.source_file)) :
    us.Nodup ∧
    (∀ s, s ∈ us ↔ s ∈ srcs) ∧
    us.Pairwise (fun a b => srcs.indexOf a < srcs.indexOf b) ∧
    us.length = srcs.toFinset.card ∧
    (∀ cv ∈ clips,
      clipInputIdx us bg cv.clip.source_file =
        us.indexOf cv.clip.source_file + (if bg then 2 else 1)) ∧
    (∀ cv1 ∈ clips, ∀ cv2 ∈ clips, cv1.clip.source_file = cv2.clip.source_file →
      clipInputIdx us bg cv1.clip.source_file = clipInputIdx us bg cv2.clip.source_file) ∧
    (∀ cv ∈ clips, ∀ image : String, ∀ bgOpt : Option String, bgOpt.isSome = bg →
      ([image] ++ bgOpt.toList ++ us).get? (clipInputIdx us bg cv.clip.source_file) =
        some cv.clip.source_file) ∧
    (∀ image tl style bgOpt bgv mvol outName plan, flattenClips tl = clips →
      bgOpt.isSome = bg →
      buildTimelinePlan image tl style bgOpt bgv mvol outName = .ok plan →
      plan.inputs = [image] ++ bgOpt.toList ++ us ∧
        plan.inputs.length = 1 + bgOpt.toList.length + us.length) := by
  subst hus hsrcs
  have hnodup := nodup_computeUniqueSources clips
  have hmem := mem_computeUniqueSources clips
  refine ⟨hnodup, hmem, pairwise_firstSeen_computeUniqueSources clips, ?_, ?_, ?_, ?_, ?_⟩
  · have hext : (computeUniqueSources clips).toFinset =
        (clips.map (fun cv => cv.clip.source_file)).toFinset := by
      ext s
      simp only [List.mem_toFinset]
      exact hmem s
    rw [← hext, List.toFinset_card_of_nodup hnodup]
  · intro cv _
    rw [clipInputIdx, clipBaseOffset]
  · intro cv1 _ cv2 _ hsame
    rw [hsame]
  · intro cv hcv image bgOpt hbg
    have hmemcv : cv.clip.source_file ∈ computeUniqueSources clips :=
      (hmem _).2 (List.mem_map_of_mem (fun cv => cv.clip.source_file) hcv)
    have hidx : (computeUniqueSources clips).indexOf cv.clip.source_file <
        (computeUniqueSources clips).length := List.indexOf_lt_length.2 hmemcv
    have hbase : clipBaseOffset bg = 1 + bgOpt.toList.length := by
      cases bgOpt <;> simp_all [clipBaseOffset]
    have harr : [image] ++ bgOpt.toList ++ computeUniqueSources clips =
        ([image] ++ bgOpt.toList) ++ computeUniqueSources clips := by
      simp [List.append_assoc]
    rw [clipInputIdx, hbase, harr]
    have hlen : ([image] ++ bgOpt.toList).length = 1 + bgOpt.toList.length := by
      simp
      omega
    rw [show (computeUniqueSources clips).indexOf cv.clip.source_file +
        (1 + bgOpt.toList.length) =
        ([image] ++ bgOpt.toList).length +
          (computeUniqueSources clips).indexOf cv.clip.source_file by omega]
    rw [List.get?_append_right (by omega)]
    rw [hlen, show 1 + bgOpt.toList.length +
        (computeUniqueSources clips).indexOf cv.clip.source_file -
        (1 + bgOpt.toList.length) =
        (computeUniqueSources clips).indexOf cv.clip.source_file by omega]
    rw [List.get?_eq_get hidx]
    rw [List.indexOf_get hidx]
  · intro image tl style bgOpt bgv mvol outName plan hflat hbg hplan
    obtain ⟨first, rest, audio_dir, hF, hP, hplanEq⟩ := buildTimelinePlan_inv hplan
    rw [hflat] at hF
    subst hplanEq
    constructor
    · simp [hF]
    · simp [hF]
      omega

/-- Concrete three-clip list (two distinct sources, `d/a.mp3` repeated)
used by the C3 witness. -/
def clipsC : List ClipWithVolume :=
  [⟨⟨"d/a.mp3", 0, 5, 0, 5⟩, 1⟩, ⟨⟨"d/b.mp3", 5, 3, 0, 3⟩, 1⟩, ⟨⟨"d/a.mp3", 8, 2, 1, 3⟩, 1⟩]

/-- Witness for C3 at `clipsC` without background music. -/
theorem input_resolver_witness :
    (computeUniqueSources clipsC).Nodup ∧
    (∀ s, s ∈ computeUniqueSources clipsC ↔
      s ∈ clipsC.map (fun cv => cv.clip.source_file)) ∧
    (computeUniqueSources clipsC).Pairwise (fun a b =>
      (clipsC.map (fun cv => cv.clip.source_file)).indexOf a <
        (clipsC.map (fun cv => cv.clip.source_file)).indexOf b) ∧
    (computeUniqueSources clipsC).length =
      (clipsC.map (fun cv => cv.clip.source_file)).toFinset.card ∧
    (∀ cv ∈ clipsC,
      clipInputIdx (computeUniqueSources clipsC) false cv.clip.source_file =
        (computeUniqueSources clipsC).indexOf cv.clip.source_file +
          (if false then 2 else 1)) ∧
    (∀ cv1 ∈ clipsC, ∀ cv2 ∈ clipsC, cv1.clip.source_file = cv2.clip.source_file →
      clipInputIdx (computeUniqueSources clipsC) false cv1.clip.source_file =
        clipInputIdx (computeUniqueSources clipsC) false cv2.clip.source_file) ∧
    (∀ cv ∈ clipsC, ∀ image : String, ∀ bgOpt : Option String, bgOpt.isSome = false →
      ([image] ++ bgOpt.toList ++ computeUniqueSources clipsC).get?
          (clipInputIdx (computeUniqueSources clipsC) false cv.clip.source_file) =
        some cv.clip.source_file) ∧
    (∀ image tl style bgOpt bgv mvol outName plan, flattenClips tl = clipsC →
      bgOpt.isSome = false →
      buildTimelinePlan image tl style bgOpt bgv mvol outName = .ok plan →
      plan.inputs = [image] ++ bgOpt.toList ++ computeUniqueSources clipsC ∧
        plan.inputs.length =
          1 + bgOpt.toList.length + (computeUniqueSources clipsC).length) :=
  input_resolver clipsC false (computeUniqueSources clipsC)
    (clipsC.map (fun cv => cv.clip.source_file)) rfl rfl

/-- Claim C5: the total expected duration is the maximum of
`start_time + duration` over the clips (`0` with no clips); each emitted
percent is `min(100, elapsed/total*100)` for positive totals and `0` for a
zero total; the percent is clamped at `100` once elapsed reaches the
total, and is monotone in the elapsed time; the progress events emitted by
a run carry exactly this percent for the parsed elapsed time. -/
theorem total_duration_and_progress (clips : List ClipWithVolume) (t e1 e2 : ℚ)
    (hinv : ∀ cv ∈ clips, 0 ≤ cv.clip.start_time + cv.clip.duration) :
    (clips = [] → totalDuration clips = 0) ∧
    (∀ cv ∈ clips, cv.clip.start_time + cv.clip.duration ≤ totalDuration clips) ∧
    (clips ≠ [] → ∃ cv ∈ clips,
      totalDuration clips = cv.clip.start_time + cv.clip.duration) ∧
    (0 < t → ∀ e, progressPct t e = min 100 (e / t * 100)) ∧
    (t = 0 → ∀ e, progressPct t e = 0) ∧
    (0 < t → t ≤ e1 → progressPct t e1 = 100) ∧
    (e1 ≤ e2 → progressPct t e1 ≤ progressPct t e2) ∧
    (∀ env : TimelineEnv, ∀ image tl style bgOpt bgv mvol outName,
      flattenClips tl = clips →
      ∀ p ∈ (convert_timeline_to_video_model env image tl style bgOpt bgv mvol
        outName).2.2,
        p.progress = progressPct (totalDuration clips) (parse_time_to_seconds p.time)) := by
  refine ⟨?_, ?_, ?_, ?_, ?_, ?_, ?_, ?_⟩
  · intro h
    rw [h]
    rfl
  · intro cv hcv
    exact foldl_max_mem_le _ 0 _ (List.mem_map_of_mem _ hcv)
  · intro hne
    rcases foldl_max_cases (clips.map (fun cv => cv.clip.start_time + cv.clip.duration)) 0
      with h | h
    · rcases clips with _ | ⟨c, cs⟩
      · exact absurd rfl hne
      · refine ⟨c, List.mem_cons_self c cs, le_antisymm ?_ ?_⟩
        · rw [totalDuration, h]
          exact hinv c (List.mem_cons_self c cs)
        · exact foldl_max_mem_le _ 0 _ (List.mem_map_of_mem _ (List.mem_cons_self c cs))
    · obtain ⟨cv, hcv, heq⟩ := List.mem_map.1 h
      exact ⟨cv, hcv, heq.symm⟩
  · intro ht e
    rw [progressPct, if_pos ht, min_comm]
  · intro ht e
    rw [progressPct, ht]
    simp
  · intro ht hle
    rw [progressPct, if_pos ht]
    have h1 : (100 : ℚ) ≤ e1 / t * 100 := by
      have h2 := (one_le_div ht).2 hle
      nlinarith
    rw [min_eq_right h1]
  · intro hle
    rw [progressPct, progressPct]
    split
    · next ht =>
      exact min_le_min (mul_le_mul_of_nonneg_right ((div_le_div_right ht).2 hle)
        (by norm_num)) le_rfl
    · exact le_refl 0
  · intro env image tl style bgOpt bgv mvol outName hflat p hp
    simp only [convert_timeline_to_video_model] at hp
    rcases hd : env.downloadErr with _ | d
    swap
    · simp only [hd] at hp
      simp at hp
    simp only [hd] at hp
    rcases hb : buildTimelinePlan image tl style bgOpt bgv mvol outName with be | plan
    · simp only [hb] at hp
      simp at hp
    simp only [hb] at hp
    rcases hs : env.spawnErr with _ | se
    swap
    · simp only [hs] at hp
      simp at hp
    simp only [hs] at hp
    rcases hit : env.iterErr with _ | ie
    swap
    · simp only [hit] at hp
      simp at hp
    simp only [hit] at hp
    have hmap : p ∈ env.events.map (fun ev =>
        ({ frame := ev.frame, fps := ev.fps, time := ev.time,
           progress := progressPct (totalDuration (flattenClips tl))
             (parse_time_to_seconds ev.time) } : ExportProgress)) := by
      rcases hw : env.waitErr with _ | we
      swap
      · simp only [hw] at hp
        exact hp
      · simp only [hw] at hp
        rcases hex : env.exitSuccess with _ | _ <;> simp only [hex] at hp <;>
          simp_all
    obtain ⟨ev, _, rfl⟩ := List.mem_map.1 hmap
    rw [hflat]

/-- Witness for C5 at `clipsC` (total 10): the total bounds and attains the
per-clip end times, `progressPct` clamps at 100 for elapsed 12 > 10, and
is monotone from elapsed 12 to 15. -/
theorem total_duration_and_progress_witness :
    (∀ cv ∈ clipsC, cv.clip.start_time + cv.clip.duration ≤ totalDuration clipsC) ∧
    (clipsC ≠ [] → ∃ cv ∈ clipsC,
      totalDuration clipsC = cv.clip.start_time + cv.clip.duration) ∧
    progressPct 10 12 = 100 ∧
    progressPct 10 12 ≤ progressPct 10 15 := by
  have h := total_duration_and_progress clipsC 10 12 15
    (by intro cv hcv; fin_cases hcv <;> norm_num [clipsC])
  exact ⟨h.2.1, h.2.2.1, h.2.2.2.2.2.1 (by norm_num) (by norm_num),
    h.2.2.2.2.2.2.1 (by norm_num)⟩

/-- Claim C6: a timeline whose tracks hold zero clips makes the conversion
return the descriptive error `No audio clips in timeline` with no encoder
subprocess spawned and no progress emitted, while at the compiler layer an
empty clip list yields the empty filter-graph string. -/
theorem empty_timeline_rejected (tl : TimelineData) (h : flattenClips tl = [])
    (env : TimelineEnv) (image style : String) (bgp : Option String) (bgv mv : Int)
    (outName : Option String) (us : List String) (mvol : ℚ) (bg : Bool) :
    buildTimelinePlan image tl style bgp bgv mv outName =
      .error "No audio clips in timeline" ∧
    (env.downloadErr = none →
      (convert_timeline_to_video_model env image tl style bgp bgv mv outName).1 =
        .error "No audio clips in timeline") ∧
    (convert_timeline_to_video_model env image tl style bgp bgv mv outName).2.1 = [] ∧
    (convert_timeline_to_video_model env image tl style bgp bgv mv outName).2.2 = [] ∧
    generate_filter_complex [] us mvol bg = "" := by
  have hplan : buildTimelinePlan image tl style bgp bgv mv outName =
      .error "No audio clips in timeline" := by
    simp only [buildTimelinePlan, h]
  refine ⟨hplan, ?_, ?_, ?_, rfl⟩
  · intro hd
    simp only [convert_timeline_to_video_model, hd, hplan]
  · rcases hd : env.downloadErr with _ | d
    · simp only [convert_timeline_to_video_model, hd, hplan]
    · simp only [convert_timeline_to_video_model, hd]
  · rcases hd : env.downloadErr with _ | d
    · simp only [convert_timeline_to_video_model, hd, hplan]
    · simp only [convert_timeline_to_video_model, hd]

/-- Witness for C6: a timeline with one clipless track is rejected before
any spawn, with empty effect and progress traces, and the compiler maps the
empty clip list to the empty graph. -/
theorem empty_timeline_rejected_witness :
    buildTimelinePlan "img.png" ⟨[⟨[], 1⟩]⟩ "cover" none 50 100 none =
      .error "No audio clips in timeline" ∧
    ((⟨none, none, none, [], none, true⟩ : TimelineEnv).downloadErr = none →
      (convert_timeline_to_video_model ⟨none, none, none, [], none, true⟩ "img.png"
        ⟨[⟨[], 1⟩]⟩ "cover" none 50 100 none).1 =
        .error "No audio clips in timeline") ∧
    (convert_timeline_to_video_model ⟨none, none, none, [], none, true⟩ "img.png"
      ⟨[⟨[], 1⟩]⟩ "cover" none 50 100 none).2.1 = [] ∧
    (convert_timeline_to_video_model ⟨none, none, none, [], none, true⟩ "img.png"
      ⟨[⟨[], 1⟩]⟩ "cover" none 50 100 none).2.2 = [] ∧
    generate_filter_complex [] ["x.mp3"] 1 false = "" :=
  empty_timeline_rejected ⟨[⟨[], 1⟩]⟩ (by decide) ⟨none, none, none, [], none, true⟩
    "img.png" "cover" none 50 100 none ["x.mp3"] 1 false

lemma joinPath_right_ne (dir : String) {a b : String} (h : a ≠ b) :
    joinPath dir a ≠ joinPath dir b := by
  rw [joinPath, joinPath]
  split
  · exact h
  · intro he
    apply h
    have hd : dir.data ++ "/".data ++ a.data = dir.data ++ "/".data ++ b.data :=
      congrArg String.data he
    exact string_eq_of_data_eq (List.append_cancel_left hd)

/-- Environment in which the concatenation subprocess exits with failure
while every other external step succeeds. -/
def envConcatFail : LegacyEnv := ⟨none, none, none, none, false, none, none, true⟩

/-- Counterexample to C8 as stated: with two input files and a failing
concatenation, the concat list is created, the conversion errors out, and
neither the concat list nor the combined file is ever passed to a deletion
attempt. -/
theorem legacy_cleanup_counterexample :
    (convert_to_video_model envConcatFail "img.png" ["d/a.mp3", "d/b.mp3"] "cover"
        none 50 100).1 = .error "FFmpeg concatenation failed" ∧
    FsEffect.createFile "d/concat_list.txt" (concatContent ["d/a.mp3", "d/b.mp3"]) ∈
      (convert_to_video_model envConcatFail "img.png" ["d/a.mp3", "d/b.mp3"] "cover"
        none 50 100).2 ∧
    FsEffect.deleteFile "d/concat_list.txt" ∉
      (convert_to_video_model envConcatFail "img.png" ["d/a.mp3", "d/b.mp3"] "cover"
        none 50 100).2 ∧
    FsEffect.deleteFile "d/temp_combined.mp3" ∉
      (convert_to_video_model envConcatFail "img.png" ["d/a.mp3", "d/b.mp3"] "cover"
        none 50 100).2 := by
  refine ⟨rfl, by decide, by decide, by decide⟩

/-- Claim C8 (amended): in the legacy multi-file path the transient files
are deleted only on the successful paths: the concat list is deleted
exactly when the concatenation stage fully succeeds, and the combined
audio file is deleted exactly when the whole conversion returns success;
on failing exit paths after their creation the files are left behind
(deletion attempts are fire-and-forget and never surface errors, which the
model reflects by `deleteFile` effects carrying no result). -/
theorem legacy_cleanup_amended (env : LegacyEnv) (image p1 p2 : String) (ps : List String)
    (style : String) (bgp : Option String) (bgv mv : Int) (dir : String)
    (hdl : env.downloadErr = none) (hp : pathParent? p1 = some dir)
    (hw : env.writeErr = none) :
    (FsEffect.deleteFile (joinPath dir "concat_list.txt") ∈
        (convert_to_video_model env image (p1 :: p2 :: ps) style bgp bgv mv).2 ↔
      env.concatSpawnErr = none ∧ env.concatWaitErr = none ∧ env.concatSuccess = true) ∧
    (FsEffect.deleteFile (joinPath dir "temp_combined.mp3") ∈
        (convert_to_video_model env image (p1 :: p2 :: ps) style bgp bgv mv).2 ↔
      ∃ out, (convert_to_video_model env image (p1 :: p2 :: ps) style bgp bgv mv).1 =
        .ok out) ∧
    FsEffect.createFile (joinPath dir "concat_list.txt")
        (concatContent (p1 :: p2 :: ps)) ∈
      (convert_to_video_model env image (p1 :: p2 :: ps) style bgp bgv mv).2 := by
  have hgt : 1 < (p1 :: p2 :: ps).length := by simp
  have hne1 : joinPath dir "concat_list.txt" ≠ joinPath dir "temp_combined.mp3" :=
    joinPath_right_ne dir (by decide)
  have hne2 : joinPath dir "temp_combined.mp3" ≠ joinPath dir "concat_list.txt" :=
    Ne.symm hne1
  rcases hcs : env.concatSpawnErr with _ | cse <;>
    rcases hcw : env.concatWaitErr with _ | cwe <;>
      rcases hcx : env.concatSuccess with _ | _ <;>
        rcases hbgp : bgp with _ | m <;>
          rcases hes : env.encodeSpawnErr with _ | ese <;>
            rcases hew : env.encodeWaitErr with _ | ewe <;>
              rcases hex : env.encodeSuccess with _ | _ <;>
                simp_all [convert_to_video_model, legacyEncodeStage, hgt]

/-- Environment in which every external step of the legacy path succeeds. -/
def envAllOk : LegacyEnv := ⟨none, none, none, none, true, none, none, true⟩

/-- Witness for the amended C8: with two inputs and an all-success
environment, both transient files are deleted, and the characterisations
hold. -/
theorem legacy_cleanup_amended_witness :
    (FsEffect.deleteFile (joinPath "d" "concat_list.txt") ∈
        (convert_to_video_model envAllOk "img.png" ["d/a.mp3", "d/b.mp3"] "cover"
          none 50 100).2 ↔
      envAllOk.concatSpawnErr = none ∧ envAllOk.concatWaitErr = none ∧
        envAllOk.concatSuccess = true) ∧
    (FsEffect.deleteFile (joinPath "d" "temp_combined.mp3") ∈
        (convert_to_video_model envAllOk "img.png" ["d/a.mp3", "d/b.mp3"] "cover"
          none 50 100).2 ↔
      ∃ out, (convert_to_video_model envAllOk "img.png" ["d/a.mp3", "d/b.mp3"] "cover"
        none 50 100).1 = .ok out) ∧
    FsEffect.createFile (joinPath "d" "concat_list.txt")
        (concatContent ["d/a.mp3", "d/b.mp3"]) ∈
      (convert_to_video_model envAllOk "img.png" ["d/a.mp3", "d/b.mp3"] "cover"
        none 50 100).2 :=
  legacy_cleanup_amended envAllOk "img.png" "d/a.mp3" "d/b.mp3" [] "cover" none 50 100 "d"
    rfl (by decide) rfl

lemma string_data_append (x y : String) : (x ++ y).data = x.data ++ y.data := rfl

lemma generate_filter_complex_head (c : ClipWithVolume) (cs : List ClipWithVolume)
    (us : List String) (mv : ℚ) (bg : Bool) :
    (generate_filter_complex (c :: cs) us mv bg).data.head? = some '[' := by
  rw [generate_filter_complex]
  simp only [List.isEmpty_cons, Bool.false_eq_true, if_false]
  have hcons : mapWithIndex (fun i cv => clipFilterPart us bg i cv) 0 (c :: cs) ++
      [mixPart (c :: cs).length mv] =
      clipFilterPart us bg 0 c ::
        (mapWithIndex (fun i cv => clipFilterPart us bg i cv) 1 cs ++
          [mixPart (c :: cs).length mv]) := by
    simp [mapWithIndex]
  rw [hcons]
  obtain ⟨t, ht⟩ := joinSep_ne_nil_cons ";" (clipFilterPart us bg 0 c) _
  rw [ht]
  have hhead : (clipFilterPart us bg 0 c).data.head? = some '[' := by
    simp [clipFilterPart, string_data_append]
  rcases hda : (clipFilterPart us bg 0 c).data with _ | ⟨ch, rest⟩
  · rw [hda] at hhead
    simp at hhead
  · rw [hda] at hhead
    simp only [List.head?_cons, Option.some.injEq] at hhead
    simp [hhead]

/-- Counterexample to C9 as stated: the concatenated two-file round trip
feeds the single-file path, whose audio filter for master volume `1` is
`volume=1`, while the timeline compilation of the equivalent single clip
(duration 10, trim `[0,10)`) emits a trim/delay/mix graph — the two texts
are not identical. -/
theorem roundtrip_counterexample :
    legacyMainAudioFilter 1 ≠
      generate_filter_complex [⟨⟨"d/temp_combined.mp3", 0, 10, 0, 10⟩, 1⟩]
        ["d/temp_combined.mp3"] 1 false := by
  simp +decide [generate_filter_complex, clipFilterPart, mixPart, clipInputIdx,
    clipBaseOffset, ratTrunc, joinSep, mapWithIndex, legacyMainAudioFilter]

/-- Claim C9 (amended): the round trip does not reproduce the filter text:
for every master volume and every non-empty clip list the legacy
single-file audio filter (`volume=M`, applied via `-af`) differs from the
timeline filter graph compiled for the clips, whose text always begins
with a bracketed input label. -/
theorem roundtrip_amended (mv : ℚ) (c : ClipWithVolume) (cs : List ClipWithVolume)
    (us : List String) :
    legacyMainAudioFilter mv ≠ generate_filter_complex (c :: cs) us mv false := by
  intro he
  have h1 : (legacyMainAudioFilter mv).data.head? = some 'v' := by
    simp [legacyMainAudioFilter, string_data_append]
  have h2 := generate_filter_complex_head c cs us mv false
  rw [← he] at h2
  rw [h1] at h2
  simp at h2
